import Mathlib

/-!
Verification of the wavetrx FSK protocol engine against its design spec.

The embedding follows the Rust sources of the repository:
  * `src/wavetrx/src/utils.rs`                     (`bits_to_bytes`)
  * `src/wavetrx/src/protocol/tx/transmitter.rs`   (`Transmitter`, `StreamTransmitter`)
  * `src/wavetrx/src/protocol/tx/tone.rs`          (`ToneGenerator`)
  * `src/wavetrx/src/protocol/rx/resolver.rs`      (`RxResolver`)
  * `src/wavetrx/src/protocol/rx/live_receiver.rs` (`LiveReceiver::add_samples`)
  * `src/wavetrx/src/audio/spectrum.rs`            (`Normalizer`)

f32 values are modelled by `F32`: an IEEE-754 classification tag (normal,
subnormal, zero, infinite, NaN), a sign bit, and an exact rational magnitude.
This captures everything the verified code inspects: `is_normal`,
`is_sign_positive` / `is_sign_negative`, the `PartialOrd` comparisons (every
comparison with NaN is false, the two zeros are equal), negation and absolute
value.  Division is modelled as exact rational division with the IEEE special
cases; none of the verified properties depend on rounding of a quotient.
-/

namespace Wavetrx

/-- IEEE-754 classification of an `f32`, as reported by Rust's
`f32::is_normal` / `is_subnormal` / `is_infinite` / `is_nan`. -/
inductive FCls where
  | normal
  | subnormal
  | zero
  | inf
  | nan
deriving DecidableEq, Repr

/-- Model of an `f32`: classification, sign bit (`true` = positive sign, as in
`f32::is_sign_positive`), and exact magnitude (`0` for zeros, irrelevant for
infinities and NaN). -/
structure F32 where
  cls : FCls
  sgn : Bool
  mag : ℚ
deriving DecidableEq, Repr

namespace F32

/-- Signed rational value of a finite `F32` (`+0.0` and `-0.0` both map to `0`). -/
def val (x : F32) : ℚ :=
  if x.sgn then x.mag else -x.mag

/-- `f32::is_normal`. -/
def isNormal (x : F32) : Bool :=
  x.cls = FCls.normal

/-- `f32::is_sign_positive`. -/
def isSignPositive (x : F32) : Bool :=
  x.sgn

/-- `f32::is_sign_negative`. -/
def isSignNegative (x : F32) : Bool :=
  !x.sgn

/-- `+0.0`. -/
def posZero : F32 :=
  ⟨FCls.zero, true, 0⟩

/-- `-inf` (the value `log10` of a zero magnitude yields in dB). -/
def negInf : F32 :=
  ⟨FCls.inf, false, 0⟩

/-- `+inf`. -/
def posInf : F32 :=
  ⟨FCls.inf, true, 0⟩

/-- A NaN value. -/
def nanF : F32 :=
  ⟨FCls.nan, true, 0⟩

/-- A finite nonzero `f32` of rational value `q` (normal class); the zero
value is mapped to `+0.0`. -/
def ofRat (q : ℚ) : F32 :=
  if q = 0 then posZero else ⟨FCls.normal, decide (0 < q), |q|⟩

/-- A positive subnormal of magnitude `q`. -/
def subnormalOf (q : ℚ) : F32 :=
  ⟨FCls.subnormal, true, q⟩

/-- Rust `PartialOrd::partial_cmp` on `f32`: `none` iff either side is NaN;
infinities compare by sign; finite values compare by exact value (so
`-0.0 == +0.0`). -/
def pcmp (a b : F32) : Option Ordering :=
  match a.cls, b.cls with
  | FCls.nan, _ => none
  | _, FCls.nan => none
  | FCls.inf, FCls.inf =>
      match a.sgn, b.sgn with
      | true, true => some Ordering.eq
      | true, false => some Ordering.gt
      | false, true => some Ordering.lt
      | false, false => some Ordering.eq
  | FCls.inf, _ => some (if a.sgn then Ordering.gt else Ordering.lt)
  | _, FCls.inf => some (if b.sgn then Ordering.lt else Ordering.gt)
  | _, _ => some (compare a.val b.val)

/-- Rust `a < b` on `f32`. -/
def lt (a b : F32) : Bool :=
  pcmp a b = some Ordering.lt

/-- Rust `a > b` on `f32`. -/
def gt (a b : F32) : Bool :=
  pcmp a b = some Ordering.gt

/-- Rust `a <= b` on `f32`. -/
def le (a b : F32) : Bool :=
  pcmp a b = some Ordering.lt || pcmp a b = some Ordering.eq

/-- Rust `a >= b` on `f32`. -/
def ge (a b : F32) : Bool :=
  pcmp a b = some Ordering.gt || pcmp a b = some Ordering.eq

/-- Rust unary negation on `f32` (flips the sign bit, for every class). -/
def neg (x : F32) : F32 :=
  ⟨x.cls, !x.sgn, x.mag⟩

/-- Rust `f32::abs` (clears the sign bit, for every class). -/
def abs (x : F32) : F32 :=
  ⟨x.cls, true, x.mag⟩

/-- Rust `f32` division, modelled with exact rational quotients: NaN operands,
`0/0` and `inf/inf` give NaN; division by zero gives a signed infinity;
division of a finite value by an infinity gives a signed zero.  Rounding,
overflow and the subnormal range of a quotient are not modelled; no verified
property depends on the numeric value of a quotient. -/
def div (a b : F32) : F32 :=
  match a.cls, b.cls with
  | FCls.nan, _ => nanF
  | _, FCls.nan => nanF
  | FCls.inf, FCls.inf => nanF
  | FCls.inf, _ => ⟨FCls.inf, a.sgn == b.sgn, 0⟩
  | _, FCls.inf => ⟨FCls.zero, a.sgn == b.sgn, 0⟩
  | FCls.zero, FCls.zero => nanF
  | FCls.zero, _ => ⟨FCls.zero, a.sgn == b.sgn, 0⟩
  | _, FCls.zero => ⟨FCls.inf, a.sgn == b.sgn, 0⟩
  | _, _ =>
      let q : ℚ := a.val / b.val
      if q = 0 then ⟨FCls.zero, a.sgn == b.sgn, 0⟩
      else ⟨FCls.normal, decide (0 < q), |q|⟩

end F32

/-!
## Bit-vector to byte conversion — `src/wavetrx/src/utils.rs`, `bits_to_bytes`

Rust's `slice::chunks(8)` yields all chunks in order; the last chunk is
shorter when the length is not a multiple of 8, and it IS yielded.
-/

/-- Structural worker for `listChunks`; the fuel starts at the list's length
and strictly bounds the recursion depth (for `n > 0` it is never exhausted
before the list is). -/
def chunksFuel (n : ℕ) : ℕ → List α → List (List α)
  | _, [] => []
  | 0, _ :: _ => []
  | fuel + 1, x :: xs => (x :: xs).take n :: chunksFuel n fuel ((x :: xs).drop n)

/-- Rust `slice::chunks n` (`n > 0`, the source always passes `8`): splits a
list into consecutive chunks of `n` elements; the final chunk may be shorter
and IS included. -/
def listChunks (n : ℕ) (l : List α) : List (List α) :=
  chunksFuel n l.length l

/-- The inner loop of `bits_to_bytes`: `byte |= 1 << (7 - index)` for every
enumerated bit equal to `1`. -/
def byteOfChunkAux : List ℕ → ℕ → ℕ → ℕ
  | [], _, acc => acc
  | bit :: rest, idx, acc =>
      byteOfChunkAux rest (idx + 1) (if bit = 1 then acc ||| (1 <<< (7 - idx)) else acc)

/-- `bits_to_bytes` from `src/wavetrx/src/utils.rs`: MSB-first packing of a
0/1 vector into bytes, one byte per `chunks(8)` chunk. -/
def bitsToBytes (bits : List ℕ) : List ℕ :=
  (listChunks 8 bits).map (fun chunk => byteOfChunkAux chunk 0 0)

/-- The MSB-first bit expansion of a byte performed by
`Transmitter::append_byte` (`for i in (0..8).rev()`, bit `i` set iff
`byte & (1 << i) != 0`), recorded as a 0/1 vector. -/
def byteBitsMSB (b : ℕ) : List ℕ :=
  (List.range 8).reverse.map (fun i => if b &&& (1 <<< i) ≠ 0 then 1 else 0)

/-!
## Transmitter — `src/wavetrx/src/protocol/tx/transmitter.rs` and `tone.rs`

`ToneGenerator` appends, per call, one run of f32 samples synthesised from a
frequency, a duration in microseconds and (for the faded variants) a fade
ratio; the run holds `sample_rate * duration / 1_000_000` samples (integer
division).  The embedding records each appended run as a `ToneEvent` carrying
exactly the arguments of the call; the f32 sine/fade sample values inside a
run are floating-point trigonometry and are not modelled (no claim under
verification depends on them).  The buffer length in samples is recovered by
`eventSampleCount` / `eventsSampleLen`.
-/

/-- Frequencies in Hz (the `Frequency` newtype over `f32`). -/
abbrev Freq := ℚ

/-- One appended run of samples: a plain tone (`append_tone`, frequency `0`
gives silence) or a sine-faded tone (`append_sine_faded_tone`).  Durations
are in microseconds. -/
inductive ToneEvent where
  | tone (freq : Freq) (durationUs : ℕ)
  | sineFaded (freq : Freq) (durationUs : ℕ) (fade : ℚ)
deriving DecidableEq, Repr

/-- The audio spec; only the sample rate is consulted by the tone generator. -/
structure AudioSpec where
  sampleRate : ℕ
deriving DecidableEq, Repr

/-- `markers`: the three marker frequencies of a profile. -/
structure Markers where
  start : Freq
  endF : Freq
  next : Freq
deriving DecidableEq, Repr

/-- `bits`: the two bit frequencies of a profile. -/
structure Bits where
  high : Freq
  low : Freq
deriving DecidableEq, Repr

/-- `Bits::from_boolean`. -/
def Bits.fromBoolean (b : Bits) (bit : Bool) : Freq :=
  if bit then b.high else b.low

/-- `pulses`: tone and gap durations in microseconds
(`PulseDuration::as_micros`). -/
structure Pulses where
  tone : ℕ
  gap : ℕ
deriving DecidableEq, Repr

/-- A protocol profile. -/
structure Profile where
  markers : Markers
  bits : Bits
  pulses : Pulses
deriving DecidableEq, Repr

/-- Number of samples of one appended run:
`sample_size = (sample_rate * duration) / 1_000_000` (`ToneGenerator`). -/
def eventSampleCount (spec : AudioSpec) : ToneEvent → ℕ
  | ToneEvent.tone _ d => spec.sampleRate * d / 1000000
  | ToneEvent.sineFaded _ d _ => spec.sampleRate * d / 1000000

/-- Total sample count of a list of runs (the generator buffer's length). -/
def eventsSampleLen (spec : AudioSpec) (evs : List ToneEvent) : ℕ :=
  (evs.map (eventSampleCount spec)).sum

/-- `ToneGenerator::append_tone`. -/
def appendTone (buf : List ToneEvent) (freq : Freq) (durationUs : ℕ) : List ToneEvent :=
  buf ++ [ToneEvent.tone freq durationUs]

/-- `ToneGenerator::append_sine_faded_tone`. -/
def appendSineFadedTone (buf : List ToneEvent) (freq : Freq) (durationUs : ℕ)
    (fade : ℚ) : List ToneEvent :=
  buf ++ [ToneEvent.sineFaded freq durationUs fade]

/-- `Transmitter::append_start`: faded start tone of `tone_us`, then a
zero-frequency gap of `gap_us`. -/
def appendStart (p : Profile) (buf : List ToneEvent) (fade : ℚ) : List ToneEvent :=
  appendTone (appendSineFadedTone buf p.markers.start p.pulses.tone fade) 0 p.pulses.gap

/-- `Transmitter::append_end`. -/
def appendEnd (p : Profile) (buf : List ToneEvent) (fade : ℚ) : List ToneEvent :=
  appendTone (appendSineFadedTone buf p.markers.endF p.pulses.tone fade) 0 p.pulses.gap

/-- `Transmitter::append_next`. -/
def appendNext (p : Profile) (buf : List ToneEvent) (fade : ℚ) : List ToneEvent :=
  appendTone (appendSineFadedTone buf p.markers.next p.pulses.tone fade) 0 p.pulses.gap

/-- `Transmitter::append_silence`: one zero-frequency tone of `4 * gap_us`. -/
def appendSilence (p : Profile) (buf : List ToneEvent) : List ToneEvent :=
  appendTone buf 0 (p.pulses.gap * 4)

/-- `Transmitter::append_bit`: faded tone at `bits.from_boolean(bit)`, then a
zero-frequency gap. -/
def appendBit (p : Profile) (buf : List ToneEvent) (bit : Bool) (fade : ℚ) : List ToneEvent :=
  appendTone (appendSineFadedTone buf (p.bits.fromBoolean bit) p.pulses.tone fade) 0 p.pulses.gap

/-- `Transmitter::append_byte`: `for i in (0..8).rev()`, append the bit pulse
for bit `i` of `byte`, then a next spacer. -/
def appendByte (p : Profile) (buf : List ToneEvent) (byte : ℕ) (fade : ℚ) : List ToneEvent :=
  (List.range 8).reverse.foldl
    (fun b i => appendNext p (appendBit p b (byte &&& (1 <<< i) ≠ 0) fade) fade) buf

/-- `Transmitter::create` with `fade = 0.1`: leading silence, start marker,
next spacer, the payload bytes, end marker, next spacer, trailing silence. -/
def transmitterCreate (p : Profile) (data : List ℕ) : List ToneEvent :=
  let fade : ℚ := 1 / 10
  let buf := appendSilence p []
  let buf := appendStart p buf fade
  let buf := appendNext p buf fade
  let buf := data.foldl (fun b byte => appendByte p b byte fade) buf
  let buf := appendEnd p buf fade
  let buf := appendNext p buf fade
  appendSilence p buf

/-!
### Streaming transmitter — `StreamTransmitter<N>`
-/

/-- `StreamTxStage`. -/
inductive StreamTxStage where
  | start
  | data
  | endS
deriving DecidableEq, Repr

/-- The mutable state of `StreamTransmitter`: stage machine, remaining data
iterator, tone generator buffer, close flag, fade. -/
structure StreamTxState where
  stage : StreamTxStage
  data : List ℕ
  buffer : List ToneEvent
  close : Bool
  fade : ℚ
deriving DecidableEq, Repr

/-- `StreamTransmitter::new` (stage `Start`, empty buffer, `close = false`,
`fade = 0.0`). -/
def streamTxNew (data : List ℕ) : StreamTxState :=
  ⟨StreamTxStage.start, data, [], false, 0⟩

/-- The `for _ in 0..N` loop of `StreamTransmitter::next`: each iteration
advances the stage machine once; the `End` arm appends the closing pulses,
sets `close` and breaks out of the loop. -/
def streamTxLoop (p : Profile) (n : ℕ) (st : StreamTxState) : StreamTxState :=
  match n with
  | 0 => st
  | n + 1 =>
      match st.stage with
      | StreamTxStage.start =>
          streamTxLoop p n
            { st with
              buffer := appendNext p (appendStart p (appendSilence p st.buffer) st.fade) st.fade,
              stage := StreamTxStage.data }
      | StreamTxStage.data =>
          match st.data with
          | byte :: rest =>
              streamTxLoop p n
                { st with buffer := appendByte p st.buffer byte st.fade, data := rest }
          | [] => streamTxLoop p n { st with stage := StreamTxStage.endS }
      | StreamTxStage.endS =>
          { st with
            buffer := appendSilence p (appendNext p (appendEnd p st.buffer st.fade) st.fade),
            close := true }

/-- `StreamTransmitter::next`: `None` once closed; otherwise run up to `N`
stage steps, then take ownership of the whole generator buffer and yield it. -/
def streamTxNext (p : Profile) (n : ℕ) (st : StreamTxState) :
    Option (List ToneEvent) × StreamTxState :=
  if st.close then (none, st)
  else
    let st1 := streamTxLoop p n st
    (some st1.buffer, { st1 with buffer := [] })

/-!
## Resolver — `src/wavetrx/src/protocol/rx/resolver.rs`
-/

/-- `RxState`. -/
inductive RxState where
  | Start
  | End
  | Next
  | Bit
  | Unset
deriving DecidableEq, Repr

/-- `RxState::is_start`. -/
def RxState.isStart (s : RxState) : Bool :=
  s = RxState.Start

/-- `RxState::is_bit`. -/
def RxState.isBit (s : RxState) : Bool :=
  s = RxState.Bit

/-- `RxState::is_start_or_bit`. -/
def RxState.isStartOrBit (s : RxState) : Bool :=
  s.isStart || s.isBit

/-- `RxState::is_next`. -/
def RxState.isNext (s : RxState) : Bool :=
  s = RxState.Next

/-- `RxOutput`. -/
inductive RxOutput where
  | Bit (b : ℕ)
  | End
  | Error
  | Undefined
deriving DecidableEq, Repr

/-- `RxMagnitudes`: the five per-window dB magnitudes and the configured
threshold. -/
structure RxMagnitudes where
  start : F32
  endF : F32
  next : F32
  high : F32
  low : F32
  threshold : F32
deriving DecidableEq, Repr

/-- `RxMagnitudes::prominent_bit`: `(high > low) as u8`. -/
def RxMagnitudes.prominentBit (m : RxMagnitudes) : ℕ :=
  if F32.gt m.high m.low then 1 else 0

/-- `RxMagnitudes::prominent_bit_magnitude`. -/
def RxMagnitudes.prominentBitMagnitude (m : RxMagnitudes) : F32 :=
  if m.prominentBit = 1 then m.high else m.low

/-- `RxMagnitudes::within_threshold`:
`value >= -threshold && value <= threshold` (f32 comparisons). -/
def RxMagnitudes.withinThreshold (m : RxMagnitudes) (value : F32) : Bool :=
  F32.ge value (F32.neg m.threshold) && F32.le value m.threshold

/-- `RxState::within_threshold`: selects the magnitude named by the state
(`Bit` uses the prominent bit magnitude); `Unset` returns `false` for every
magnitude record. -/
def RxState.withinThreshold (s : RxState) (m : RxMagnitudes) : Bool :=
  match s with
  | RxState.Start => m.withinThreshold m.start
  | RxState.End => m.withinThreshold m.endF
  | RxState.Next => m.withinThreshold m.next
  | RxState.Bit => m.withinThreshold m.prominentBitMagnitude
  | RxState.Unset => false

/-- `RxMarker`: a (selection, expectation) pair. -/
structure RxMarker where
  selection : RxState
  expectation : RxState
deriving DecidableEq, Repr

/-- `RxMarker::new`. -/
def RxMarker.unset : RxMarker :=
  ⟨RxState.Unset, RxState.Unset⟩

/-- `RxMarker::with_expectation`. -/
def RxMarker.withExpectation (e : RxState) : RxMarker :=
  ⟨RxState.Unset, e⟩

/-- `RxResolver`: the current marker and the end marker. -/
structure RxResolver where
  cMarker : RxMarker
  eMarker : RxMarker
deriving DecidableEq, Repr

/-- `RxResolver::new`: current = (Unset, Start), end = (Unset, Unset). -/
def RxResolver.new : RxResolver :=
  ⟨RxMarker.withExpectation RxState.Start, RxMarker.unset⟩

/-- `RxResolver::reset`. -/
def RxResolver.reset (_ : RxResolver) : RxResolver :=
  RxResolver.new

/-- `RxResolver::evaluate_expectation`: if the current expectation's magnitude
is within threshold, apply the transition (`Start`/`Bit` become the selection
with expectation `Next`; `Next` after a `Start`/`Bit` selection sets the
expectation to `Bit`) and report `true`. -/
def RxResolver.evaluateExpectation (r : RxResolver) (m : RxMagnitudes) :
    RxResolver × Bool :=
  let expectation := r.cMarker.expectation
  if expectation.withinThreshold m then
    if expectation.isStartOrBit then
      ({ r with cMarker := ⟨expectation, RxState.Next⟩ }, true)
    else if expectation.isNext then
      if r.cMarker.selection.isStartOrBit then
        ({ r with cMarker := { r.cMarker with expectation := RxState.Bit } }, true)
      else (r, true)
    else (r, true)
  else (r, false)

/-- `RxResolver::evaluate_end`: when the current expectation and selection are
both `Bit` and the end magnitude is within threshold, latch the end marker to
(End, Next) and report `true`. -/
def RxResolver.evaluateEnd (r : RxResolver) (m : RxMagnitudes) : RxResolver × Bool :=
  if r.cMarker.expectation.isBit then
    if r.cMarker.selection.isBit then
      if RxState.End.withinThreshold m then
        ({ r with eMarker := ⟨RxState.End, RxState.Next⟩ }, true)
      else (r, false)
    else (r, false)
  else (r, false)

/-- `RxResolver::resolve_end`: when the end was not latched this window,
return `End` if the end expectation is within threshold and the current
expectation was not satisfied, else unset the end marker; then return `Error`
if neither the expectation nor the end was satisfied. -/
def RxResolver.resolveEnd (r : RxResolver) (m : RxMagnitudes)
    (initialExpectation hasEnd : Bool) : RxResolver × Option RxOutput :=
  if !hasEnd then
    if !initialExpectation && r.eMarker.expectation.withinThreshold m then
      (r, some RxOutput.End)
    else
      let r1 := { r with eMarker := RxMarker.unset }
      if !initialExpectation && !hasEnd then (r1, some RxOutput.Error) else (r1, none)
  else
    if !initialExpectation && !hasEnd then (r, some RxOutput.Error) else (r, none)

/-- `RxResolver::resolve_expectation`: when the expectation was satisfied and
the marker is now (selection `Bit`, expectation `Next`), emit the prominent
bit. -/
def RxResolver.resolveExpectation (r : RxResolver) (m : RxMagnitudes)
    (initialExpectation : Bool) : Option RxOutput :=
  if initialExpectation then
    if r.cMarker.selection.isBit && r.cMarker.expectation.isNext then
      some (RxOutput.Bit m.prominentBit)
    else none
  else none

/-- `RxResolver::resolve`: evaluate the current expectation FIRST, then
evaluate the end against the (possibly updated) markers, then resolve the end
and the output. -/
def RxResolver.resolve (r : RxResolver) (m : RxMagnitudes) : RxResolver × RxOutput :=
  let (r1, initialExpectation) := r.evaluateExpectation m
  let (r2, hasEnd) := r1.evaluateEnd m
  let (r3, endOut) := r2.resolveEnd m initialExpectation hasEnd
  match endOut with
  | some o => (r3, o)
  | none =>
      match r3.resolveExpectation m initialExpectation with
      | some o => (r3, o)
      | none => (r3, RxOutput.Undefined)

/-- Modelled from the spec: the per-window order the spec prescribes
(§4.4.3 / claim C3) — evaluate the end tentatively FIRST, only then evaluate
the current expectation, then resolve the end and the output with the same
primitive steps as the source.  Used solely to compare the spec's order
against `RxResolver.resolve`. -/
def RxResolver.resolveSpecOrder (r : RxResolver) (m : RxMagnitudes) :
    RxResolver × RxOutput :=
  let (r1, hasEnd) := r.evaluateEnd m
  let (r2, initialExpectation) := r1.evaluateExpectation m
  let (r3, endOut) := r2.resolveEnd m initialExpectation hasEnd
  match endOut with
  | some o => (r3, o)
  | none =>
      match r3.resolveExpectation m initialExpectation with
      | some o => (r3, o)
      | none => (r3, RxOutput.Undefined)

/-!
## Live receiver windowing — `src/wavetrx/src/protocol/rx/live_receiver.rs`

`add_samples` appends the (re-normalized) chunk, then — once `start_idx` is
set and the start signal flagged — steps tone windows through the buffer.
The per-window pipeline `receive_bits` (chunk re-normalization followed by the
five FFT magnitudes) is floating-point spectral analysis; the loop model takes
it as an explicit function `analyze : List F32 → RxMagnitudes`, and everything
around it (window extraction, guard, advancement, output handling, buffer
compaction) follows the source.  `sample_size` and the tone sample size `tsz`
are computed by the same formula in the source and are one parameter here.
The Rust `while` loop is modelled with an explicit fuel parameter; each
iteration advances `start_idx` by `tsz + gsz` and never grows the buffer, so
any fuel of at least `buffer.length` iterations reaches the loop's exit.
-/

/-- The receiver state touched by `add_samples`' windowing phase. -/
structure RxLoopState where
  buffer : List F32
  startIdx : Option ℕ
  startSignal : Bool
  bits : List ℕ
  resolver : RxResolver
deriving DecidableEq, Repr

/-- `LiveReceiver::drain_buffer_to_starting_index`. -/
def drainBufferToStartingIndex (st : RxLoopState) (idx : ℕ) : RxLoopState :=
  if idx < st.buffer.length then { st with buffer := st.buffer.drop idx }
  else { st with buffer := [] }

/-- `LiveReceiver::refresh_buffer` (`tsz` is the receiver's `sample_size`). -/
def refreshBuffer (tsz : ℕ) (st : RxLoopState) : RxLoopState :=
  match st.startIdx with
  | some idx => drainBufferToStartingIndex st idx
  | none => drainBufferToStartingIndex st (st.buffer.length - tsz * 8)

/-- `LiveReceiver::refresh_all_states`. -/
def refreshAllStates (tsz : ℕ) (st : RxLoopState) : RxLoopState :=
  let st1 := refreshBuffer tsz st
  { st1 with bits := [], resolver := RxResolver.new, startIdx := none, startSignal := false }

/-- `LiveReceiver::handle_rx_output`. -/
def handleRxOutput (tsz : ℕ) (st : RxLoopState) (o : RxOutput) : RxLoopState :=
  match o with
  | RxOutput.Bit b => { st with bits := st.bits ++ [b] }
  | RxOutput.End => refreshAllStates tsz st
  | RxOutput.Error => refreshAllStates tsz st
  | RxOutput.Undefined => st

/-- The window `get_owned_samples_chunk` extracts at index `i`
(`[i, i + tsz)`, the ending index clamped to the buffer length). -/
def rxWindow (buf : List F32) (i tsz : ℕ) : List F32 :=
  (buf.drop i).take tsz

/-- The `while start_idx + self.sample_size < self.buffer.0.len()` loop of
`add_samples`: resolve the window at the current index, handle the output,
advance the index by `tsz + gsz` and store it in `start_idx`.  Returns the
final state together with the list of window start indices processed. -/
def rxLoopTrace (analyze : List F32 → RxMagnitudes) (tsz gsz : ℕ) :
    ℕ → RxLoopState → ℕ → RxLoopState × List ℕ
  | 0, st, _ => (st, [])
  | fuel + 1, st, i =>
      if i + tsz < st.buffer.length then
        let res := st.resolver.resolve (analyze (rxWindow st.buffer i tsz))
        let st1 := handleRxOutput tsz { st with resolver := res.1 } res.2
        let i1 := i + tsz + gsz
        let st2 := { st1 with startIdx := some i1 }
        let rec2 := rxLoopTrace analyze tsz gsz fuel st2 i1
        (rec2.1, i :: rec2.2)
      else (st, [])

/-- The windowing branch of `add_samples`: runs the loop when `start_idx` is
set and the start signal is flagged, behind the outer
`buffer.len() > start_idx + sample_size` check. -/
def addSamplesProcess (analyze : List F32 → RxMagnitudes) (tsz gsz fuel : ℕ)
    (st : RxLoopState) : RxLoopState × List ℕ :=
  match st.startIdx, st.startSignal with
  | some i, true =>
      if st.buffer.length > i + tsz then rxLoopTrace analyze tsz gsz fuel st i
      else (st, [])
  | some _, false => (st, [])
  | none, _ => (st, [])

/-!
## Normalizer — `src/wavetrx/src/audio/spectrum.rs`
-/

/-- `Normalizer::compare_positive`: positives order above negatives; two
positives compare by `partial_cmp` with `unwrap_or(Equal)`; two negatives are
`Equal`. -/
def comparePositive (a b : F32) : Ordering :=
  match a.isSignPositive, b.isSignPositive with
  | true, false => Ordering.gt
  | false, true => Ordering.lt
  | true, true => (F32.pcmp a b).getD Ordering.eq
  | false, false => Ordering.eq

/-- `Normalizer::compare_negative` (note the swapped `b.partial_cmp(a)`). -/
def compareNegative (a b : F32) : Ordering :=
  match a.isSignNegative, b.isSignNegative with
  | true, false => Ordering.gt
  | false, true => Ordering.lt
  | true, true => (F32.pcmp b a).getD Ordering.eq
  | false, false => Ordering.eq

/-- Rust `Iterator::max_by`: `none` on an empty iterator; otherwise the fold
that keeps the accumulator only when it compares `Greater` (so the last of
several maxima wins). -/
def maxBy (cmp : F32 → F32 → Ordering) : List F32 → Option F32
  | [] => none
  | x :: xs =>
      some (xs.foldl (fun acc y => if cmp acc y = Ordering.gt then acc else y) x)

/-- `Normalizer::find_max_magnitudes`: the positive and negative peaks.  The
source calls `.max_by(..).unwrap()`; the `none` result models the panic on an
empty slice. -/
def findMaxMagnitudes (l : List F32) : Option (F32 × F32) :=
  match maxBy comparePositive l, maxBy compareNegative l with
  | some p, some n => some (p, n)
  | _, _ => none

/-- `Normalizer::normalize_positive`. -/
def normalizePositive (s pMax pMin : F32) : F32 :=
  if F32.lt s pMin then F32.posZero else F32.div s pMax

/-- `Normalizer::normalize_negative` (sets `0.0`, i.e. `+0.0`, below the
floor; otherwise divides by `n_max.abs()`). -/
def normalizeNegative (s nMax nMin : F32) : F32 :=
  if F32.gt s nMin then F32.posZero else F32.div s (F32.abs nMax)

/-- `Normalizer::normalize_samples`: one pass over the slice; only `is_normal`
samples are touched, dispatched on their sign. -/
def normalizeSamples (l : List F32) (pMax nMax pMin nMin : F32) : List F32 :=
  l.map (fun s =>
    if s.isNormal then
      if s.isSignPositive then normalizePositive s pMax pMin
      else if s.isSignNegative then normalizeNegative s nMax nMin
      else s
    else s)

/-- `Normalizer::normalize(ceiling)`: peaks divided by the ceiling, minima
zero.  `none` models the `unwrap` panic on an empty slice. -/
def normalize (ceiling : F32) (l : List F32) : Option (List F32) :=
  (findMaxMagnitudes l).map (fun pn =>
    normalizeSamples l (F32.div pn.1 ceiling) (F32.div pn.2 ceiling) F32.posZero F32.posZero)

/-- `Normalizer::normalize_floor(ceiling, floor)`: as `normalize`, with
minima `floor` and `-floor`. -/
def normalizeFloor (ceiling floor : F32) (l : List F32) : Option (List F32) :=
  (findMaxMagnitudes l).map (fun pn =>
    normalizeSamples l (F32.div pn.1 ceiling) (F32.div pn.2 ceiling) floor (F32.neg floor))

/-!
## Constants — `src/wavetrx/src/consts.rs` and `lib.rs::get_profile`
-/

/-- The profile built by `get_profile` from the constants in `consts.rs`:
markers 7000/9000/3000 Hz, bits 5000/1000 Hz, tone 1000 us, gap 2000 us. -/
def defaultProfile : Profile :=
  ⟨⟨7000, 9000, 3000⟩, ⟨5000, 1000⟩, ⟨1000, 2000⟩⟩

/-- The 48 kHz audio spec used by the concrete end-to-end scenarios. -/
def spec48 : AudioSpec :=
  ⟨48000⟩

/-- `DB_THRESHOLD = 8.0`. -/
def dbThreshold : F32 :=
  F32.ofRat 8

/-!
## Helper lemmas
-/

/-- With enough fuel, `chunks(8)` yields `ceil(len / 8)` chunks. -/
theorem chunksFuel8_length :
    ∀ (fuel : ℕ) (l : List ℕ), l.length ≤ fuel →
      (chunksFuel 8 fuel l).length = (l.length + 7) / 8 := by
  intro fuel
  induction fuel with
  | zero =>
      intro l hl
      match l with
      | [] => simp [chunksFuel]
  | succ fuel ih =>
      intro l hl
      match l with
      | [] => simp [chunksFuel]
      | x :: xs =>
        rw [chunksFuel, List.length_cons,
          ih ((x :: xs).drop 8) (by simp only [List.length_drop, List.length_cons] at hl ⊢; omega)]
        simp only [List.length_drop, List.length_cons] at hl ⊢
        omega

/-- `chunks(8)` yields `ceil(len / 8)` chunks. -/
theorem listChunks8_length : ∀ (l : List ℕ), (listChunks 8 l).length = (l.length + 7) / 8 := by
  intro l
  exact chunksFuel8_length l.length l le_rfl

/-!
## Claim theorems
-/

/-- C4. For every byte `b` in `[0, 255]`, expanding `b` into its 8 bits
MSB-first (as `Transmitter::append_byte` does) and applying `bits_to_bytes`
yields exactly `[b]`. -/
theorem c4_bit_byte_law : ∀ (b : Fin 256), bitsToBytes (byteBitsMSB b.val) = [b.val] := by
  set_option maxRecDepth 8000 in decide

/-- C9 counterexample. The claim states that a trailing partial group is not
emitted and that `bits_to_bytes` returns `floor(len / 8)` bytes; on the bit
vector `[1]` the source emits the byte `128` (the single bit placed at the
most significant position), so the output length is `1`, not
`floor(1 / 8) = 0`. -/
theorem c9_cex_partial_group_emitted :
    bitsToBytes [1] = [128] ∧ (bitsToBytes [1]).length ≠ ([1] : List ℕ).length / 8 := by
  decide

/-- C9 (amended). `bits_to_bytes` packs MSB-first in groups of 8 and a
trailing partial group IS emitted as one (low-zero-padded) byte: the output
always contains `ceil(len / 8)` bytes. -/
theorem c9_bits_to_bytes_length :
    ∀ (bits : List ℕ), (bitsToBytes bits).length = (bits.length + 7) / 8 := by
  intro bits
  simp [bitsToBytes, listChunks8_length]

/-- A magnitude record representing a silence window: every spectral
magnitude is `-inf` dB and the threshold is the configured `DB_THRESHOLD`. -/
def silenceMags : RxMagnitudes :=
  ⟨F32.negInf, F32.negInf, F32.negInf, F32.negInf, F32.negInf, F32.ofRat 8⟩

/-- On operands that are neither infinite nor NaN, `pcmp` is `compare` on the
signed rational values. -/
theorem pcmp_finite (a b : F32)
    (ha : a.cls = FCls.normal ∨ a.cls = FCls.subnormal ∨ a.cls = FCls.zero)
    (hb : b.cls = FCls.normal ∨ b.cls = FCls.subnormal ∨ b.cls = FCls.zero) :
    F32.pcmp a b = some (compare a.val b.val) := by
  obtain ⟨ca, sa, ma⟩ := a
  obtain ⟨cb, sb, mb⟩ := b
  rcases ha with h | h | h <;> rcases hb with h2 | h2 | h2 <;> simp_all [F32.pcmp]

/-- C7. With the configured threshold `Θ = 8` dB, a magnitude is within
threshold iff it is finite and `-Θ ≤ x ≤ Θ`; `-inf` is never within
threshold; `Unset`'s state predicate is `false` on every magnitude record;
and on a silence window (all five magnitudes `-inf`) no state's predicate
holds, so the resolver can never accept silence as a marker. -/
theorem c7_threshold_semantics :
    ∀ (m : RxMagnitudes), m.threshold = F32.ofRat 8 →
      ((∀ v : F32, m.withinThreshold v = true ↔
          ((v.cls = FCls.normal ∨ v.cls = FCls.subnormal ∨ v.cls = FCls.zero) ∧
            -8 ≤ v.val ∧ v.val ≤ 8))
        ∧ m.withinThreshold F32.negInf = false
        ∧ (∀ m2 : RxMagnitudes, RxState.Unset.withinThreshold m2 = false)
        ∧ (∀ s : RxState, s.withinThreshold silenceMags = false)) := by
  intro m hthr
  have hofrat : F32.ofRat 8 = ⟨FCls.normal, true, 8⟩ := by
    rw [F32.ofRat, if_neg (by norm_num)]
    norm_num
  have hneg : F32.neg (F32.ofRat 8) = ⟨FCls.normal, false, 8⟩ := by
    rw [hofrat]
    rfl
  have hiff : ∀ v : F32, m.withinThreshold v = true ↔
      ((v.cls = FCls.normal ∨ v.cls = FCls.subnormal ∨ v.cls = FCls.zero) ∧
        -8 ≤ v.val ∧ v.val ≤ 8) := by
    intro v
    rw [RxMagnitudes.withinThreshold, hthr, hneg, hofrat]
    by_cases hv : v.cls = FCls.normal ∨ v.cls = FCls.subnormal ∨ v.cls = FCls.zero
    · rw [F32.ge, F32.le,
        pcmp_finite v ⟨FCls.normal, false, 8⟩ hv (Or.inl rfl),
        pcmp_finite v ⟨FCls.normal, true, 8⟩ hv (Or.inl rfl)]
      have hvneg : F32.val ⟨FCls.normal, false, 8⟩ = -8 := by
        simp [F32.val]
      have hvpos : F32.val ⟨FCls.normal, true, 8⟩ = 8 := by
        simp [F32.val]
      rw [hvneg, hvpos]
      simp only [Bool.and_eq_true, Bool.or_eq_true, decide_eq_true_eq, Option.some.injEq,
        compare_eq_iff_eq, compare_gt_iff_gt, compare_lt_iff_lt]
      constructor
      · rintro ⟨h1, h2⟩
        refine ⟨hv, ?_, ?_⟩
        · rcases h1 with h | h
          · linarith
          · exact le_of_eq h.symm
        · rcases h2 with h | h
          · exact le_of_lt h
          · exact le_of_eq h
      · rintro ⟨-, h1, h2⟩
        constructor
        · exact (lt_or_eq_of_le h1).imp id Eq.symm
        · exact lt_or_eq_of_le h2
    · obtain ⟨cls, sgn, mag⟩ := v
      simp only [not_or] at hv
      obtain ⟨h1, h2, h3⟩ := hv
      cases cls with
      | nan => simp [F32.ge, F32.le, F32.pcmp]
      | inf => cases sgn <;> simp [F32.ge, F32.le, F32.pcmp]
      | normal => exact absurd rfl h1
      | subnormal => exact absurd rfl h2
      | zero => exact absurd rfl h3
  refine ⟨hiff, ?_, ?_, ?_⟩
  · cases h : m.withinThreshold F32.negInf with
    | false => rfl
    | true =>
        have h2 := (hiff F32.negInf).mp h
        simp [F32.negInf] at h2
  · intro m2
    rfl
  · intro s
    cases s <;> decide

/-- C7 witness: the theorem applied to the silence-window magnitude record,
whose threshold is the configured 8 dB. -/
theorem c7_threshold_semantics_witness :
    silenceMags.threshold = F32.ofRat 8 ∧
      ((∀ v : F32, silenceMags.withinThreshold v = true ↔
          ((v.cls = FCls.normal ∨ v.cls = FCls.subnormal ∨ v.cls = FCls.zero) ∧
            -8 ≤ v.val ∧ v.val ≤ 8))
        ∧ silenceMags.withinThreshold F32.negInf = false
        ∧ (∀ m2 : RxMagnitudes, RxState.Unset.withinThreshold m2 = false)
        ∧ (∀ s : RxState, s.withinThreshold silenceMags = false)) :=
  ⟨rfl, c7_threshold_semantics silenceMags rfl⟩

/-- C10. `Normalizer::normalize` and `normalize_floor` panic on an empty
slice (`max_by(..).unwrap()` of an empty iterator, modelled as `none`), and
on every non-empty slice both complete without panicking. -/
theorem c10_normalizer_empty_panics :
    ∀ (c f : F32) (l : List F32),
      normalize c ([] : List F32) = none ∧
      normalizeFloor c f ([] : List F32) = none ∧
      (l ≠ [] → (normalize c l).isSome = true ∧ (normalizeFloor c f l).isSome = true) := by
  intro c f l
  refine ⟨rfl, rfl, ?_⟩
  intro hl
  match l with
  | [] => exact absurd rfl hl
  | x :: xs =>
      simp [normalize, normalizeFloor, findMaxMagnitudes, maxBy]

/-- C10 witness: the theorem applied at concrete arguments, with the
non-emptiness hypothesis discharged on the one-element slice `[+0.0]`. -/
theorem c10_normalizer_empty_panics_witness :
    normalize F32.posZero ([] : List F32) = none ∧
      normalizeFloor F32.posZero F32.posZero ([] : List F32) = none ∧
      (normalize F32.posZero [F32.posZero]).isSome = true ∧
      (normalizeFloor F32.posZero F32.posZero [F32.posZero]).isSome = true :=
  ⟨(c10_normalizer_empty_panics F32.posZero F32.posZero [F32.posZero]).1,
    (c10_normalizer_empty_panics F32.posZero F32.posZero [F32.posZero]).2.1,
    (c10_normalizer_empty_panics F32.posZero F32.posZero [F32.posZero]).2.2 (by simp)⟩

/-- A resolver positioned between a bit and its next spacer: current marker
(selection Bit, expectation Bit), end marker unset. -/
def betweenBitsResolver : RxResolver :=
  ⟨⟨RxState.Bit, RxState.Bit⟩, RxMarker.unset⟩

/-- A magnitude record in which both the end tone and the prominent bit tone
are within threshold (end 0 dB, high 0 dB, everything else -100 dB, Θ = 8). -/
def endBitMags : RxMagnitudes :=
  ⟨F32.ofRat (-100), F32.ofRat 0, F32.ofRat (-100), F32.ofRat 0, F32.ofRat (-100), F32.ofRat 8⟩

/-- C3 counterexample. The claim says `resolve` evaluates the end FIRST (so
with current (selection, expectation) = (Bit, Bit) and the end magnitude
within threshold it latches end selection = End, end expectation = Next)
and only then evaluates the current expectation.  The source calls
`evaluate_expectation` first: on a window where the bit tone is also within
threshold the expectation transition runs first, `evaluate_end` then sees
expectation `Next` and does NOT latch, and the end marker ends the call
unset — while the claim's order leaves it (End, Next). -/
theorem c3_cex_expectation_evaluated_first :
    betweenBitsResolver.cMarker.selection = RxState.Bit ∧
    betweenBitsResolver.cMarker.expectation = RxState.Bit ∧
    RxState.End.withinThreshold endBitMags = true ∧
    (betweenBitsResolver.resolve endBitMags).1.eMarker = RxMarker.unset ∧
    (betweenBitsResolver.resolveSpecOrder endBitMags).1.eMarker =
      ⟨RxState.End, RxState.Next⟩ ∧
    betweenBitsResolver.resolve endBitMags ≠
      betweenBitsResolver.resolveSpecOrder endBitMags := by
  decide

/-- C3 (amended). `resolve` evaluates the current expectation first and
applies its transition; the end is evaluated only afterwards, against the
updated markers.  Hence, from (selection Bit, expectation Bit) with the end
magnitude within threshold: if the bit expectation is also satisfied the
window resolves to that bit and the end marker stays unset; only if the bit
expectation is NOT satisfied is the end marker latched to (End, Next). -/
theorem c3_resolve_order (r : RxResolver) (m : RxMagnitudes)
    (hsel : r.cMarker.selection = RxState.Bit)
    (hexp : r.cMarker.expectation = RxState.Bit)
    (hend : RxState.End.withinThreshold m = true) :
    (RxState.Bit.withinThreshold m = true →
      r.resolve m =
        (⟨⟨RxState.Bit, RxState.Next⟩, RxMarker.unset⟩, RxOutput.Bit m.prominentBit))
    ∧ (RxState.Bit.withinThreshold m = false →
      r.resolve m =
        (⟨⟨RxState.Bit, RxState.Bit⟩, ⟨RxState.End, RxState.Next⟩⟩, RxOutput.Undefined)) := by
  obtain ⟨⟨cs, ce⟩, em⟩ := r
  simp only [RxMarker.selection, RxMarker.expectation] at hsel hexp
  subst hsel hexp
  constructor
  · intro hbit
    simp [RxResolver.resolve, RxResolver.evaluateExpectation, RxResolver.evaluateEnd,
      RxResolver.resolveEnd, RxResolver.resolveExpectation, hbit, hend,
      RxState.isStartOrBit, RxState.isStart, RxState.isBit, RxState.isNext, RxMarker.unset]
  · intro hbit
    simp [RxResolver.resolve, RxResolver.evaluateExpectation, RxResolver.evaluateEnd,
      RxResolver.resolveEnd, RxResolver.resolveExpectation, hbit, hend,
      RxState.isStartOrBit, RxState.isStart, RxState.isBit, RxState.isNext, RxMarker.unset]

/-- C3 witness: the amended theorem applied to the concrete between-bits
resolver state and the end-plus-bit magnitude record. -/
theorem c3_resolve_order_witness :
    betweenBitsResolver.cMarker.selection = RxState.Bit ∧
    betweenBitsResolver.cMarker.expectation = RxState.Bit ∧
    RxState.End.withinThreshold endBitMags = true ∧
    ((RxState.Bit.withinThreshold endBitMags = true →
      betweenBitsResolver.resolve endBitMags =
        (⟨⟨RxState.Bit, RxState.Next⟩, RxMarker.unset⟩,
          RxOutput.Bit endBitMags.prominentBit))
    ∧ (RxState.Bit.withinThreshold endBitMags = false →
      betweenBitsResolver.resolve endBitMags =
        (⟨⟨RxState.Bit, RxState.Bit⟩, ⟨RxState.End, RxState.Next⟩⟩,
          RxOutput.Undefined))) :=
  ⟨rfl, rfl, by decide, c3_resolve_order betweenBitsResolver endBitMags rfl rfl (by decide)⟩

/-- A magnitude record with only the start tone within threshold. -/
def startMags : RxMagnitudes :=
  ⟨F32.ofRat 0, F32.ofRat (-100), F32.ofRat (-100), F32.ofRat (-100), F32.ofRat (-100),
    F32.ofRat 8⟩

/-- A spectral-analysis stub that reports `startMags` for every window; the
counterexample states below never reach the analyzer on the disputed window,
and on the processed window only the resolver transition matters. -/
def constStartAnalyze : List F32 → RxMagnitudes :=
  fun _ => startMags

/-- Receiver state whose buffer ends exactly at the end of the pending window:
`buffer.len() = start_idx + tone_size` (48 zeros, `start_idx = 0`,
`tone_size = 48`). -/
def rxStateExact : RxLoopState :=
  ⟨List.replicate 48 F32.posZero, some 0, true, [], RxResolver.new⟩

/-- The same state with one extra sample, `buffer.len() = 49`. -/
def rxStateMore : RxLoopState :=
  ⟨List.replicate 49 F32.posZero, some 0, true, [], RxResolver.new⟩

/-- First trace entry of the windowing loop, when present, is the entry
index. -/
theorem rxLoopTrace_head (analyze : List F32 → RxMagnitudes) (tsz gsz : ℕ) :
    ∀ (fuel : ℕ) (st : RxLoopState) (i j : ℕ),
      ((rxLoopTrace analyze tsz gsz fuel st i).2).head? = some j → j = i := by
  intro fuel
  cases fuel with
  | zero =>
      intro st i j h
      simp [rxLoopTrace] at h
  | succ f =>
      intro st i j h
      rw [rxLoopTrace] at h
      by_cases hg : i + tsz < st.buffer.length
      · rw [if_pos hg] at h
        simp only [List.head?_cons, Option.some.injEq] at h
        exact h.symm
      · rw [if_neg hg] at h
        simp at h

/-- C5 counterexample.  With `tone_size = 48`, `gap_size = 96`, `start_idx`
set to 0 and the start signal flagged, a buffer of exactly
`start_idx + tone_size = 48` samples is NOT processed by `add_samples`' while
loop (the guard is the strict `start_idx + sample_size < buffer.len()`): no
window index is traced and the resolver is untouched — the claim requires
this boundary window to be processed.  One extra sample makes the same window
be processed. -/
theorem c5_cex_boundary_window_not_processed :
    rxStateExact.buffer.length = 0 + 48 ∧
    addSamplesProcess constStartAnalyze 48 96 10 rxStateExact = (rxStateExact, []) ∧
    (addSamplesProcess constStartAnalyze 48 96 10 rxStateMore).2 = [0] ∧
    (addSamplesProcess constStartAnalyze 48 96 10 rxStateMore).1.resolver =
      ⟨⟨RxState.Start, RxState.Next⟩, RxMarker.unset⟩ := by
  decide

/-- C5 (amended). Once `start_idx = i` is set and the start signal flagged,
`add_samples` processes tone windows only while
`buffer.len() > start_idx + tone_size` (strict): the processed-window trace is
empty iff `buffer.len() ≤ i + tone_size`; when `i + tone_size < buffer.len()`
the window at `i` (`[i, i + tone_size)`) is processed first and the next
processed index, if any, is `i + tone_size + gap_size`.  A window whose end
lies exactly at the end of the buffer is not processed until more samples
arrive. -/
theorem c5_strict_window_guard (analyze : List F32 → RxMagnitudes)
    (tsz gsz fuel i : ℕ) (st : RxLoopState)
    (hidx : st.startIdx = some i) (hsig : st.startSignal = true) (hfuel : 0 < fuel) :
    ((addSamplesProcess analyze tsz gsz fuel st).2 = [] ↔ st.buffer.length ≤ i + tsz)
    ∧ (i + tsz < st.buffer.length →
        ∃ tr, (addSamplesProcess analyze tsz gsz fuel st).2 = i :: tr ∧
          ∀ j, tr.head? = some j → j = i + tsz + gsz) := by
  have hproc : addSamplesProcess analyze tsz gsz fuel st =
      (if st.buffer.length > i + tsz then rxLoopTrace analyze tsz gsz fuel st i
       else (st, [])) := by
    rw [addSamplesProcess]
    rw [hidx, hsig]
  by_cases hg : i + tsz < st.buffer.length
  · obtain ⟨f, rfl⟩ : ∃ f, fuel = f + 1 := ⟨fuel - 1, by omega⟩
    rw [hproc, if_pos hg, rxLoopTrace, if_pos hg]
    constructor
    · simp only [List.cons_ne_nil, false_iff]
      omega
    · intro _
      refine ⟨_, rfl, ?_⟩
      intro j hj
      exact rxLoopTrace_head analyze tsz gsz f _ _ j hj
  · rw [hproc, if_neg hg]
    constructor
    · simp only [true_iff]
      omega
    · intro h
      exact absurd h hg

/-- C5 witness: the amended theorem applied to the concrete 49-sample state
(`start_idx = 0`, `tone_size = 48`, `gap_size = 96`). -/
theorem c5_strict_window_guard_witness :
    rxStateMore.startIdx = some 0 ∧ rxStateMore.startSignal = true ∧ 0 < 10 ∧
    (((addSamplesProcess constStartAnalyze 48 96 10 rxStateMore).2 = [] ↔
        rxStateMore.buffer.length ≤ 0 + 48)
      ∧ (0 + 48 < rxStateMore.buffer.length →
          ∃ tr, (addSamplesProcess constStartAnalyze 48 96 10 rxStateMore).2 = 0 :: tr ∧
            ∀ j, tr.head? = some j → j = 0 + 48 + 96)) :=
  ⟨rfl, rfl, by decide,
    c5_strict_window_guard constStartAnalyze 48 96 10 0 rxStateMore rfl rfl (by decide)⟩

/-!
### C2 — the frame layout of `Transmitter::create`
-/

/-- The spec's bit pulse: a faded tone at the high frequency for a 1 bit or
the low frequency for a 0 bit, then a gap. -/
def specBitPulse (p : Profile) (fade : ℚ) (bit : ℕ) : List ToneEvent :=
  [ToneEvent.sineFaded (if bit = 1 then p.bits.high else p.bits.low) p.pulses.tone fade,
    ToneEvent.tone 0 p.pulses.gap]

/-- The spec's next spacer: a faded tone at the next frequency, then a gap. -/
def specNextSpacer (p : Profile) (fade : ℚ) : List ToneEvent :=
  [ToneEvent.sineFaded p.markers.next p.pulses.tone fade, ToneEvent.tone 0 p.pulses.gap]

/-- The spec's per-byte block: eight bit pulses MSB-first, each followed by
one next spacer. -/
def specBytePulses (p : Profile) (fade : ℚ) (byte : ℕ) : List ToneEvent :=
  (byteBitsMSB byte).flatMap (fun bit => specBitPulse p fade bit ++ specNextSpacer p fade)

/-- The frame format of the spec (claim C2), for a given fade ratio: leading
silence of 4 gaps, start pulse, next spacer, the per-byte blocks, end pulse,
trailing next spacer, trailing silence of 4 gaps. -/
def specFrame (p : Profile) (fade : ℚ) (data : List ℕ) : List ToneEvent :=
  [ToneEvent.tone 0 (p.pulses.gap * 4)]
    ++ [ToneEvent.sineFaded p.markers.start p.pulses.tone fade,
        ToneEvent.tone 0 p.pulses.gap]
    ++ specNextSpacer p fade
    ++ data.flatMap (specBytePulses p fade)
    ++ [ToneEvent.sineFaded p.markers.endF p.pulses.tone fade,
        ToneEvent.tone 0 p.pulses.gap]
    ++ specNextSpacer p fade
    ++ [ToneEvent.tone 0 (p.pulses.gap * 4)]

/-- One bit pulse plus next spacer of the transmitter equals the spec's bit
pulse plus spacer. -/
theorem appendBit_next_eq (p : Profile) (buf : List ToneEvent) (fade : ℚ)
    (c : Prop) [Decidable c] :
    appendNext p (appendBit p buf (decide c) fade) fade =
      buf ++ specBitPulse p fade (if c then 1 else 0) ++ specNextSpacer p fade := by
  by_cases h : c <;>
    simp [h, appendNext, appendBit, appendTone, appendSineFadedTone, Bits.fromBoolean,
      specBitPulse, specNextSpacer]

/-- The `for i in (0..8).rev()` loop of `append_byte`, over any index list. -/
theorem appendByte_loop (p : Profile) (fade : ℚ) (byte : ℕ) :
    ∀ (is : List ℕ) (buf : List ToneEvent),
      is.foldl
        (fun b i => appendNext p (appendBit p b (decide (byte &&& (1 <<< i) ≠ 0)) fade) fade)
        buf
      = buf ++ (is.map (fun i => if byte &&& (1 <<< i) ≠ 0 then 1 else 0)).flatMap
          (fun bit => specBitPulse p fade bit ++ specNextSpacer p fade) := by
  intro is
  induction is with
  | nil => intro buf; simp
  | cons i rest ih =>
      intro buf
      rw [List.foldl_cons, ih, appendBit_next_eq]
      simp [List.append_assoc]

/-- `append_byte` appends exactly the spec's per-byte block. -/
theorem appendByte_eq (p : Profile) (buf : List ToneEvent) (byte : ℕ) (fade : ℚ) :
    appendByte p buf byte fade = buf ++ specBytePulses p fade byte := by
  rw [appendByte, appendByte_loop]
  simp [specBytePulses, byteBitsMSB]

/-- The data loop of `create` appends the per-byte blocks in payload order. -/
theorem createData_loop (p : Profile) (fade : ℚ) :
    ∀ (data : List ℕ) (buf : List ToneEvent),
      data.foldl (fun b byte => appendByte p b byte fade) buf
        = buf ++ data.flatMap (specBytePulses p fade) := by
  intro data
  induction data with
  | nil => intro buf; simp
  | cons byte rest ih =>
      intro buf
      rw [List.foldl_cons, appendByte_eq, ih]
      simp [List.append_assoc]

/-- C2. For every profile and payload, `Transmitter::create` produces the
samples in exactly the spec's frame order: leading silence of four gaps, the
start marker pulse, one next spacer, per payload byte (MSB-first) eight bit
pulses each followed by one next spacer, the end marker pulse, one trailing
next spacer, and trailing silence of four gaps — all with fade ratio 0.1. -/
theorem c2_create_frame_order :
    ∀ (p : Profile) (data : List ℕ),
      transmitterCreate p data = specFrame p (1 / 10) data := by
  intro p data
  rw [transmitterCreate]
  rw [createData_loop]
  simp [appendSilence, appendStart, appendNext, appendEnd, appendTone, appendSineFadedTone,
    specFrame, specNextSpacer, List.append_assoc]

/-!
### C6 — the streaming transmitter
-/

/-- `streamTxLoop` only appends to the generator buffer. -/
theorem streamTxLoop_buffer_append (p : Profile) :
    ∀ (n : ℕ) (st : StreamTxState),
      ∃ evs, (streamTxLoop p n st).buffer = st.buffer ++ evs := by
  intro n
  induction n with
  | zero => intro st; exact ⟨[], by simp [streamTxLoop]⟩
  | succ n ih =>
      intro st
      obtain ⟨stage, data, buffer, close, fade⟩ := st
      cases stage with
      | start =>
          obtain ⟨evs, hevs⟩ := ih ⟨StreamTxStage.data, data,
            appendNext p (appendStart p (appendSilence p buffer) fade) fade, close, fade⟩
          rw [streamTxLoop, hevs]
          simp only [appendNext, appendStart, appendSilence, appendTone, appendSineFadedTone,
            List.append_assoc]
          exact ⟨_, rfl⟩
      | data =>
          cases data with
          | nil =>
              obtain ⟨evs, hevs⟩ := ih ⟨StreamTxStage.endS, [], buffer, close, fade⟩
              rw [streamTxLoop]
              exact ⟨evs, hevs⟩
          | cons byte rest =>
              obtain ⟨evs, hevs⟩ := ih ⟨StreamTxStage.data, rest,
                appendByte p buffer byte fade, close, fade⟩
              rw [streamTxLoop, hevs, appendByte_eq]
              simp only [List.append_assoc]
              exact ⟨_, rfl⟩
      | endS =>
          rw [streamTxLoop]
          simp only [appendSilence, appendNext, appendEnd, appendTone, appendSineFadedTone,
            List.append_assoc]
          exact ⟨_, rfl⟩

/-- C6 (amended). `StreamTransmitter::next` advances the stage machine by up
to `N` stages per call (each stage appends a whole pulse group, not single
samples) and then yields the generator's ENTIRE buffer, leaving it empty;
chunk sample counts are therefore stage-dependent and unrelated to `N`.
Once closed (the call in which the `End` stage ran), every subsequent call
returns `None`, so the iterator is exhausted after the final chunk. -/
theorem c6_stream_next_semantics (p : Profile) (n : ℕ) (st : StreamTxState) :
    (st.close = true → streamTxNext p n st = (none, st))
    ∧ (st.close = false →
        (streamTxNext p n st).1 = some (streamTxLoop p n st).buffer ∧
        (streamTxNext p n st).2.buffer = [] ∧
        (streamTxNext p n st).2.close = (streamTxLoop p n st).close)
    ∧ (∃ evs, (streamTxLoop p n st).buffer = st.buffer ++ evs) := by
  refine ⟨?_, ?_, streamTxLoop_buffer_append p n st⟩
  · intro h
    rw [streamTxNext, if_pos h]
  · intro h
    rw [streamTxNext, if_neg (by simp [h])]
    exact ⟨rfl, rfl, rfl⟩

/-- C6 counterexample. With `N = 1` and the empty payload over the default
profile at 48 kHz, the first `next()` call yields a chunk of 672 samples
(leading silence, start pulse, next spacer), not `N = 1` samples, and the
iterator is not yet exhausted (the following call yields `Some` — in fact an
empty chunk, another violation of the fixed-chunk-size claim). -/
theorem c6_cex_chunks_not_fixed_size :
    eventsSampleLen spec48
        ((streamTxNext defaultProfile 1 (streamTxNew [])).1.getD []) = 672 ∧
    (672 : ℕ) ≠ 1 ∧
    (streamTxNext defaultProfile 1
        ((streamTxNext defaultProfile 1 (streamTxNew [])).2)).1 = some [] := by
  decide

/-- C6 witness: the amended theorem applied at a closed state (exhaustion)
and at the fresh iterator for the empty payload (chunk = whole buffer). -/
theorem c6_stream_next_semantics_witness :
    ((⟨StreamTxStage.endS, [], [], true, 0⟩ : StreamTxState).close = true) ∧
    streamTxNext defaultProfile 1 (⟨StreamTxStage.endS, [], [], true, 0⟩ : StreamTxState) =
      (none, ⟨StreamTxStage.endS, [], [], true, 0⟩) ∧
    (streamTxNew []).close = false ∧
    (streamTxNext defaultProfile 1 (streamTxNew [])).1 =
      some (streamTxLoop defaultProfile 1 (streamTxNew [])).buffer :=
  ⟨rfl,
    (c6_stream_next_semantics defaultProfile 1 ⟨StreamTxStage.endS, [], [], true, 0⟩).1 rfl,
    rfl,
    ((c6_stream_next_semantics defaultProfile 1 (streamTxNew [])).2.1 rfl).1⟩

/-!
### C8 — `Normalizer::normalize_floor` zeroing and pass-through
-/

/-- A tiny positive subnormal sample. -/
def subTiny : F32 :=
  F32.subnormalOf (1 / 128)

/-- A slice whose observed positive peak is the subnormal (below any
reasonable floor) and whose negative peak is -1. -/
def cexSlice : List F32 :=
  [subTiny, F32.ofRat (-1)]

/-- The result `normalize_floor(1, 0.1)` produces on `cexSlice`. -/
def cexResult : List F32 :=
  [subTiny, F32.ofRat (-1)]

/-- C8 counterexample.  On `cexSlice` with `ceiling = 1`, `floor = 0.1`, the
observed positive peak (the subnormal) is below the floor, yet the
positive-signed subnormal sample is NOT set to zero: `normalize_samples` only
touches `is_normal()` samples, so it passes through unchanged and nonzero —
the claim requires every positive-signed sample to be zeroed. -/
theorem c8_cex_subnormal_survives_floor :
    (findMaxMagnitudes cexSlice).map Prod.fst = some subTiny ∧
    subTiny.sgn = true ∧
    F32.lt subTiny (F32.ofRat (1 / 10)) = true ∧
    normalizeFloor (F32.ofRat 1) (F32.ofRat (1 / 10)) cexSlice = some cexResult ∧
    cexResult.get? 0 = some subTiny ∧
    subTiny ≠ F32.posZero ∧ subTiny.mag ≠ 0 := by
  set_option maxRecDepth 100000 in with_unfolding_all decide

/-- C8 (amended). `normalize_floor(ceiling, floor)` zeroes per sample: a
NORMAL positive-signed sample with value `< floor` (resp. normal
negative-signed with value `> -floor`) is set to `+0.0` — so when the
positive peak is below the floor every normal positive-signed sample is
zeroed — while every sample that is not normal (zeros, subnormals, NaN,
infinities) is passed through unchanged by both `normalize_floor` and
`normalize`. -/
theorem c8_normalizer_zeroing_and_passthrough (ceiling floor : F32) (l : List F32) :
    (∀ res, normalizeFloor ceiling floor l = some res →
      res.length = l.length ∧
      ∀ (i : ℕ) (s : F32), l.get? i = some s →
        (s.cls ≠ FCls.normal → res.get? i = some s) ∧
        (s.cls = FCls.normal → s.sgn = true → F32.lt s floor = true →
          res.get? i = some F32.posZero) ∧
        (s.cls = FCls.normal → s.sgn = false → F32.gt s (F32.neg floor) = true →
          res.get? i = some F32.posZero))
    ∧ (∀ res, normalize ceiling l = some res →
        ∀ (i : ℕ) (s : F32), l.get? i = some s →
          s.cls ≠ FCls.normal → res.get? i = some s) := by
  constructor
  · intro res h
    rcases hfm : findMaxMagnitudes l with _ | pn
    · rw [normalizeFloor, hfm] at h
      exact Option.noConfusion h
    · rw [normalizeFloor, hfm] at h
      simp only [Option.map_some', Option.some.injEq] at h
      subst h
      refine ⟨by simp [normalizeSamples], ?_⟩
      intro i s hs
      have hres : (normalizeSamples l (F32.div pn.1 ceiling) (F32.div pn.2 ceiling)
          floor (F32.neg floor)).get? i =
          some (if s.isNormal then
            if s.isSignPositive then normalizePositive s (F32.div pn.1 ceiling) floor
            else if s.isSignNegative then
              normalizeNegative s (F32.div pn.2 ceiling) (F32.neg floor)
            else s
          else s) := by
        rw [normalizeSamples, List.get?_map, hs, Option.map_some']
      refine ⟨?_, ?_, ?_⟩
      · intro hcls
        rw [hres]
        simp [F32.isNormal, hcls]
      · intro hcls hsgn hlt
        rw [hres]
        simp [F32.isNormal, F32.isSignPositive, hcls, hsgn, normalizePositive, hlt]
      · intro hcls hsgn hgt
        rw [hres]
        simp [F32.isNormal, F32.isSignPositive, F32.isSignNegative, hcls, hsgn,
          normalizeNegative, hgt]
  · intro res h i s hs hcls
    rcases hfm : findMaxMagnitudes l with _ | pn
    · rw [normalize, hfm] at h
      exact Option.noConfusion h
    · rw [normalize, hfm] at h
      simp only [Option.map_some', Option.some.injEq] at h
      subst h
      rw [normalizeSamples, List.get?_map, hs, Option.map_some']
      simp [F32.isNormal, hcls]

/-- C8 witness: the amended theorem applied to the concrete slice, with the
`normalize_floor` hypothesis discharged by evaluation; the subnormal at index
0 (not a normal sample) passes through unchanged. -/
theorem c8_normalizer_zeroing_and_passthrough_witness :
    cexResult.length = cexSlice.length ∧ cexResult.get? 0 = some subTiny :=
  ⟨((c8_normalizer_zeroing_and_passthrough (F32.ofRat 1) (F32.ofRat (1 / 10)) cexSlice).1
      cexResult (by set_option maxRecDepth 100000 in with_unfolding_all decide)).1,
    (((c8_normalizer_zeroing_and_passthrough (F32.ofRat 1) (F32.ofRat (1 / 10)) cexSlice).1
      cexResult (by set_option maxRecDepth 100000 in with_unfolding_all decide)).2 0 subTiny rfl).1 (by set_option maxRecDepth 100000 in with_unfolding_all decide)⟩

end Wavetrx
